import Mathlib

/-!
Verification of the signature/metadata extraction pipeline of
documentation/python.py (m.css python doc generator).

Python strings are modelled as `List Char` (Python strings are sequences of
code points, which `List Char` models exactly).  Python functions that can
raise (`assert`, `IndexError`, a regex `match` returning `None` followed by
`.group`) are modelled as `Option`-returning functions, `none` meaning an
exception escaped.  Loops whose termination is not structural are given a
fuel parameter; theorems either quantify over sufficient fuel or supply it
concretely.
-/

set_option maxRecDepth 20000

/-- Python string model: a sequence of code points. -/
abbrev Str := List Char

/-- Python `str.startswith`, i.e. list prefix test. -/
def pyStartswith (s pre : Str) : Bool := pre.isPrefixOf s

/-- Python `str.endswith`, i.e. list suffix test. -/
def pyEndswith (s suf : Str) : Bool := suf.isSuffixOf s

/-- True when `s` is nonempty and its first element is `c`. -/
def startsWithChar (c : Char) : Str → Bool
  | [] => false
  | d :: _ => d == c

/-- Scan helper for `findSub`: try each suffix in turn, tracking the index. -/
def findSubAux : Str → Str → Nat → Option Nat
  | s, pat, i =>
    if pat.isPrefixOf s then some i
    else match s with
      | [] => none
      | _ :: t => findSubAux t pat (i + 1)

/-- Python `str.find` for a substring: index of the first occurrence, or
`none` (Python returns `-1`). -/
def findSub (s pat : Str) : Option Nat :=
  findSubAux s pat 0

/-- Python `'.'.join(path)` on a list of path segments. -/
def joinDot : List Str → Str
  | [] => []
  | [s] => s
  | s :: t => s ++ '.' :: joinDot t

/-- Decimal digit list of a natural number, as Python `str(n)` produces. -/
def natDigits (n : Nat) : Str := Nat.toDigits 10 n

/-- Python whitespace characters relevant to `str.lstrip()` on ASCII text. -/
def pyIsSpaceChar (c : Char) : Bool :=
  c == ' ' || c == '\t' || c == '\n' || c == '\r' || c == '\x0b' || c == '\x0c'

/-- Python `str.expandtabs()` (tab size 8), tracking the column, which is
reset by a newline or carriage return. -/
def expandtabsAux : Str → Nat → Str
  | [], _ => []
  | c :: t, col =>
    if c == '\t' then
      let n := 8 - col % 8
      List.replicate n ' ' ++ expandtabsAux t (col + n)
    else if c == '\n' || c == '\r' then c :: expandtabsAux t 0
    else c :: expandtabsAux t (col + 1)

/-- Python `str.split('\n')`. -/
def splitNl : Str → List Str
  | [] => [[]]
  | c :: t =>
    if c == '\n' then [] :: splitNl t
    else match splitNl t with
      | h :: r => (c :: h) :: r
      | [] => [[c]]

/-- Python `'\n'.join(lines)`. -/
def joinNl : List Str → Str
  | [] => []
  | [l] => l
  | l :: t => l ++ '\n' :: joinNl t

/-- Minimum indentation of the non-blank lines, `none` when every line is
blank (Python's `sys.maxsize` sentinel in `inspect.cleandoc`). -/
def marginOf : List Str → Option Nat
  | [] => none
  | l :: t =>
    let rest := marginOf t
    if (l.dropWhile pyIsSpaceChar).isEmpty then rest
    else
      let ind := l.length - (l.dropWhile pyIsSpaceChar).length
      match rest with
      | none => some ind
      | some m => some (min m ind)

/-- Drop trailing empty lines (Python `while lines and not lines[-1]: lines.pop()`). -/
def dropTrailingEmpty (ls : List Str) : List Str :=
  (ls.reverse.dropWhile List.isEmpty).reverse

/-- Embedding of `inspect.cleandoc` as used by `extract_summary`. -/
def cleandoc (doc : Str) : Str :=
  let lines := splitNl (expandtabsAux doc 0)
  let margin := marginOf (lines.drop 1)
  let lines := match lines with
    | [] => []
    | h :: t => h.dropWhile pyIsSpaceChar :: t
  let lines := match margin with
    | none => lines
    | some mg => match lines with
      | [] => []
      | h :: t => h :: t.map (fun l => l.drop mg)
  let lines := (dropTrailingEmpty lines).dropWhile List.isEmpty
  joinNl lines

/-- One character of `html.escape(s, quote=True)`. -/
def escChar (c : Char) : Str :=
  if c == '&' then ('&' :: 'a' :: 'm' :: 'p' :: [';'])
  else if c == '<' then ('&' :: 'l' :: 't' :: [';'])
  else if c == '>' then ('&' :: 'g' :: 't' :: [';'])
  else if c == '"' then ('&' :: 'q' :: 'u' :: 'o' :: 't' :: [';'])
  else if c == '\'' then ('&' :: '#' :: 'x' :: '2' :: '7' :: [';'])
  else [c]

/-- Embedding of `html.escape` with its default `quote=True`. -/
def htmlEscape (s : Str) : Str := (s.map escChar).flatten

/-- Embedding of `extract_summary(state, {}, [], doc)`: the call form used
inside `parse_pybind_signature`, where the external-docs table is empty, so
only the docstring branch is reachable: cleandoc, cut at the first blank
line, HTML-escape. -/
def extractSummaryDoc (doc : Str) : Str :=
  if doc.isEmpty then []
  else
    let d := cleandoc doc
    match findSub d ('\n' :: ['\n']) with
    | none => htmlEscape d
    | some e => htmlEscape (d.take e)

/-! ## Name Mapper (`map_name_prefix`, python.py lines 138-144)

The registration table `state.module_mapping` is a Python `dict`, iterated
by `.items()` in insertion order (guaranteed since Python 3.7), and
`render_module` asserts a key is never registered twice; so the table is
modelled as an ordered association list. -/

/-- A key matches iff the name equals the key or starts with the key
followed by a dot (the condition tested inside `map_name_prefix`). -/
def matchesKeyB (p n : Str) : Bool := (n == p) || (p ++ ['.']).isPrefixOf n

/-- Embedding of `map_name_prefix`: scan the registered mappings in order;
on the first key that matches return `replace ++ name[len(key):]`; when no
key matches, return the name unchanged. -/
def map_name_prefix (mapping : List (Str × Str)) (t : Str) : Str :=
  match mapping with
  | [] => t
  | (p, r) :: rest =>
    if matchesKeyB p t then r ++ t.drop p.length
    else map_name_prefix rest t

/-! ## Signature Grammar Parser (python.py lines 193-317)

Character classes of the four regexes `_pybind_name_rx` (`[a-zA-Z0-9_]*`),
`_pybind_arg_name_rx` (`[*a-zA-Z0-9_]+`), `_pybind_type_rx`
(`[a-zA-Z0-9_.]+`) and `_pybind_default_value_rx` (`[^,)]+`).  A regex
`match` is a maximal munch from the start of the string, i.e. `takeWhile`;
a `+` regex failing to match models as `none` (Python:
`.match(...).group(0)` raises `AttributeError` on no match). -/

def isNameChar (c : Char) : Bool := c.isAlphanum || c == '_'

def isArgChar (c : Char) : Bool := c == '*' || c.isAlphanum || c == '_'

def isTypeChar (c : Char) : Bool := c.isAlphanum || c == '_' || c == '.'

def isDefaultChar (c : Char) : Bool := !(c == ',') && !(c == ')')

def commaSpace : Str := ',' :: [' ']

def colonSpace : Str := ':' :: [' ']

def arrowStr : Str := ' ' :: '-' :: '>' :: [' ']

/-- The ellipsis placeholder parameter name `'…'`. -/
def elli : Str := ['…']

mutual

/-- Embedding of `parse_pybind_type` (lines 198-218): consume one type
token, map it through the Name Mapper, and, when a `[` follows, consume a
comma-separated bracketed list of inner types recursively.  Returns
`(unconsumed remainder, output type string)`; `none` models an escaped
`AssertionError` / `IndexError` / failed regex match.  `fuel` only bounds
the recursion depth; every theorem below supplies enough of it. -/
def parse_pybind_type (m : List (Str × Str)) : Nat → Str → Option (Str × Str)
  | 0, _ => none
  | fuel + 1, sig =>
    let tok := sig.takeWhile isTypeChar
    if tok.isEmpty then none
    else
      let rest := sig.dropWhile isTypeChar
      let ty := map_name_prefix m tok
      if startsWithChar '[' rest then
        ppTypeInner m fuel (rest.drop 1) (ty ++ ['['])
      else some (rest, ty)

/-- The `while signature[0] != ']'` loop inside `parse_pybind_type`,
carrying the output string built so far. -/
def ppTypeInner (m : List (Str × Str)) : Nat → Str → Str → Option (Str × Str)
  | 0, _, _ => none
  | fuel + 1, sig, acc =>
    if sig.isEmpty then none
    else if startsWithChar ']' sig then some (sig.drop 1, acc ++ [']'])
    else
      match parse_pybind_type m fuel sig with
      | none => none
      | some (sig2, inner) =>
        if startsWithChar ']' sig2 then some (sig2.drop 1, acc ++ inner ++ [']'])
        else if commaSpace.isPrefixOf sig2 then
          ppTypeInner m fuel (sig2.drop 2) (acc ++ inner ++ commaSpace)
        else none

end

/-- One parsed argument: `(arg_name, optional type, optional default)`. -/
structure PPArg where
  argName : Str
  argType : Option Str
  default : Option Str
deriving DecidableEq, Repr

/-- Result of `parse_pybind_signature`: the returned tuple
`(name, summary, args, return type)` together with two observations of the
run: `degenerate` is true exactly when one of the two parse-failure sites
produced the ellipsis tuple, and `warnings` holds the `%s` payloads of the
`logging.warning` calls made. -/
structure PPSig where
  sigName : Str
  summary : Str
  args : List PPArg
  ret : Option Str
  degenerate : Bool
  warnings : List Str
deriving DecidableEq, Repr

/-- The summary computed at both parse-failure sites (lines 257-262 and
278-283): when the first line break exists and is immediately followed by a
second newline, `extract_summary` of the text from that first line break on;
otherwise empty. -/
def degenSummary (orig : Str) : Str :=
  match findSub orig ['\n'] with
  | none => []
  | some e =>
    let tl := orig.drop (e + 1)
    if startsWithChar '\n' tl then extractSummaryDoc tl else []

/-- The degenerate return of `parse_pybind_signature`: an ellipsis
parameter, no return type, one warning truncated at the first line break. -/
def ppDegen (orig name : Str) : Option PPSig :=
  some {
    sigName := name
    summary := degenSummary orig
    args := [⟨elli, none, none⟩]
    ret := none
    degenerate := true
    warnings := [orig.takeWhile (fun c => !(c == '\n'))] }

/-- A successful (non-degenerate) return of `parse_pybind_signature`. -/
def ppOk (name summary : Str) (args : List PPArg) (ret : Option Str) : Option PPSig :=
  some {
    sigName := name
    summary := summary
    args := args
    ret := ret
    degenerate := false
    warnings := [] }

/-- Lines 277-291 of `parse_pybind_signature`: the return type (if any)
has been consumed; reject trailing non-newline garbage (second degenerate
site) and extract the summary when a blank line immediately follows. -/
def ppAfterRet (orig name : Str) (args : List PPArg) (ret : Option Str)
    (s2 : Str) : Option PPSig :=
  match s2 with
  | [] => ppOk name [] args ret
  | c :: s3 =>
    if !(c == '\n') then ppDegen orig name
    else match s3 with
      | [] => ppOk name [] args ret
      | c2 :: s4 =>
        if c2 == '\n' then ppOk name (extractSummaryDoc s4) args ret
        else ppOk name [] args ret

/-- Lines 267-291 of `parse_pybind_signature`: the closing parenthesis has
just been consumed (`rest` is the text after it); parse the optional
` -> type` and hand over to `ppAfterRet`. -/
def ppFinish (m : List (Str × Str)) (orig name : Str) (args : List PPArg)
    (rest : Str) : Option PPSig :=
  if arrowStr.isPrefixOf rest then
    match parse_pybind_type m (rest.length + 1) (rest.drop 4) with
    | none => none
    | some (s2, ty) => ppAfterRet orig name args (some ty) s2
  else ppAfterRet orig name args none rest

/-- The optional `: type` of one argument (lines 236-240): on a `: `
prefix, parse a type; otherwise no type.  Returns the remainder and the
optional type. -/
def ppArgTy (m : List (Str × Str)) (s1 : Str) : Option (Str × Option Str) :=
  if colonSpace.isPrefixOf s1 then
    match parse_pybind_type m (s1.length + 1) (s1.drop 2) with
    | none => none
    | some (s2, ty) => some (s2, some ty)
  else some (s1, none)

/-- The optional `=default` of one argument (lines 244-249): on `=`,
take everything up to the next `,` or `)` (which must be nonempty). -/
def ppArgDf (s2 : Str) : Option (Str × Option Str) :=
  if startsWithChar '=' s2 then
    if ((s2.drop 1).takeWhile isDefaultChar).isEmpty then none
    else some ((s2.drop 1).dropWhile isDefaultChar,
      some ((s2.drop 1).takeWhile isDefaultChar))
  else some (s2, none)

/-- The argument loop of `parse_pybind_signature` (lines 229-265).  Each
iteration consumes one argument (name, optional `: type`, optional
`=default`); after it, a `)` ends the loop, `, ` continues it, and anything
else is the first degenerate site. -/
def ppArgsLoop (m : List (Str × Str)) (orig name : Str) :
    Nat → Str → List PPArg → Option PPSig
  | 0, _, _ => none
  | fuel + 1, sig, args =>
    match sig with
    | [] => none
    | c :: _ =>
      if c == ')' then ppFinish m orig name args (sig.drop 1)
      else if (sig.takeWhile isArgChar).isEmpty then none
      else
        match ppArgTy m (sig.dropWhile isArgChar) with
        | none => none
        | some (s2, ty) =>
          match ppArgDf s2 with
          | none => none
          | some (s3, df) =>
            match s3 with
            | [] => none
            | c2 :: _ =>
              if c2 == ')' then
                ppFinish m orig name
                  (args ++ [⟨sig.takeWhile isArgChar, ty, df⟩]) (s3.drop 1)
              else if commaSpace.isPrefixOf s3 then
                ppArgsLoop m orig name fuel (s3.drop 2)
                  (args ++ [⟨sig.takeWhile isArgChar, ty, df⟩])
              else ppDegen orig name

/-- Embedding of `parse_pybind_signature` (lines 220-291). -/
def parse_pybind_signature (m : List (Str × Str)) (fuel : Nat) (s : Str) :
    Option PPSig :=
  match s.dropWhile isNameChar with
  | [] => none
  | c :: rest1 =>
    if c == '(' then ppArgsLoop m s (s.takeWhile isNameChar) fuel rest1 []
    else none

/-- The literal multi-overload header `"<name>(*args, **kwargs)\nOverloaded function.\n\n"`. -/
def overloadHeader (name : Str) : Str :=
  name ++ ('(' :: '*' :: 'a' :: 'r' :: 'g' :: 's' :: ',' :: ' ' :: '*' :: '*' ::
    'k' :: 'w' :: 'a' :: 'r' :: 'g' :: 's' :: ')' :: ['\n']) ++
  ('O' :: 'v' :: 'e' :: 'r' :: 'l' :: 'o' :: 'a' :: 'd' :: 'e' :: 'd' :: ' ' ::
    'f' :: 'u' :: 'n' :: 'c' :: 't' :: 'i' :: 'o' :: 'n' :: '.' :: '\n' :: ['\n'])

/-- The numbered block marker `"<id>. <name>("`. -/
def overloadMarker (id : Nat) (name : Str) : Str :=
  natDigits id ++ '.' :: ' ' :: (name ++ ['('])

/-- The `while True` loop of `parse_pybind_docstring` (lines 300-312): the
current block must start with its marker, the block text runs to the next
marker (Python slices with `next == -1`, i.e. up to the input's last
character, when there is none), and each block is parsed as one
signature.  `loopFuel` bounds the number of overloads, `sigFuel` is handed
to each signature parse. -/
def ppDocLoop (m : List (Str × Str)) (sigFuel : Nat) (name : Str) :
    Nat → Str → Nat → List PPSig → Option (List PPSig)
  | 0, _, _, _ => none
  | fuel + 1, doc, id, acc =>
    if (overloadMarker id name).isPrefixOf doc then
      let nxt := findSub doc (overloadMarker (id + 1) name)
      let chunk := match nxt with
        | none => (doc.take (doc.length - 1)).drop ((natDigits id).length + 2)
        | some n => (doc.take n).drop ((natDigits id).length + 2)
      match parse_pybind_signature m sigFuel chunk with
      | none => none
      | some t =>
        if t.sigName == name then
          match nxt with
          | none => some (acc ++ [t])
          | some n => ppDocLoop m sigFuel name fuel (doc.drop n) (id + 1) (acc ++ [t])
        else none
    else none

/-- Embedding of `parse_pybind_docstring` (lines 293-317). -/
def parse_pybind_docstring (m : List (Str × Str)) (loopFuel sigFuel : Nat)
    (name : Str) (doc : Str) : Option (List PPSig) :=
  if (overloadHeader name).isPrefixOf doc then
    ppDocLoop m sigFuel name loopFuel (doc.drop (overloadHeader name).length) 1 []
  else
    match parse_pybind_signature m sigFuel doc with
    | none => none
    | some t => some [t]

/-! ## Visibility Filter (python.py lines 131-136 and 146-185) -/

/-- Embedding of `is_internal_function_name`: underscored names are
internal except full dunder names (`__x__`). -/
def is_internal_function_name (name : Str) : Bool :=
  pyStartswith name ['_'] &&
    !(pyStartswith name ('_' :: ['_']) && pyEndswith name ('_' :: ['_']))

/-- A full dunder name: leading and trailing double underscore. -/
def isDunderName (name : Str) : Bool :=
  pyStartswith name ('_' :: ['_']) && pyEndswith name ('_' :: ['_'])

/-- The attributes of a candidate module member that
`is_internal_or_imported_module_member` inspects: whether it is a module,
its `__module__` attribute when present (non-modules), and its
`__package__` attribute (modules; `none` models Python `None`). -/
structure PyMember where
  isModule : Bool
  moduleAttr : Option Str
  packageAttr : Option Str
deriving DecidableEq, Repr

/-- Embedding of `is_internal_or_imported_module_member`: any name starting
with an underscore is internal; a non-module whose (name-mapped)
`__module__` differs from the enclosing path is imported; a module member
is kept only under the package-consistency rules (with the pybind11
`__package__ is None` compatibility escape). -/
def is_internal_or_imported_module_member (pybindCompat : Bool)
    (mapping : List (Str × Str)) (parentPackage : Option Str)
    (path : List Str) (name : Str) (obj : PyMember) : Bool :=
  if pyStartswith name ['_'] then true
  else if !obj.isModule then
    match obj.moduleAttr with
    | some ma => !( map_name_prefix mapping ma == joinDot path)
    | none => false
  else if pybindCompat && obj.packageAttr == none then false
  else
    match parentPackage with
    | none => true
    | some pp =>
      if pp.isEmpty then true
      else !(obj.packageAttr == some pp || obj.packageAttr == some (pp ++ '.' :: name))

/-! ## Known autogenerated dunder docstrings (python.py lines 786-834)

`_filtered_builtin_functions` is a Python `set` of (name, docstring) pairs
used only through membership tests, so it is modelled as a list with an
`any`-based membership test.  The base table is extended depending on the
runtime version (3.7+ or 3.6). -/

def filtered_builtin_functions_base : List (Str × Str) := [
  (("__delattr__" : String).toList, ("Implement delattr(self, name)." : String).toList),
  (("__eq__" : String).toList, ("Return self==value." : String).toList),
  (("__ge__" : String).toList, ("Return self>=value." : String).toList),
  (("__getattribute__" : String).toList, ("Return getattr(self, name)." : String).toList),
  (("__gt__" : String).toList, ("Return self>value." : String).toList),
  (("__hash__" : String).toList, ("Return hash(self)." : String).toList),
  (("__init__" : String).toList,
    ("Initialize self.  See help(type(self)) for accurate signature." : String).toList),
  (("__init_subclass__" : String).toList,
    ("This method is called when a class is subclassed.\n\nThe default implementation does nothing. It may be\noverridden to extend subclasses.\n" : String).toList),
  (("__le__" : String).toList, ("Return self<=value." : String).toList),
  (("__lt__" : String).toList, ("Return self<value." : String).toList),
  (("__ne__" : String).toList, ("Return self!=value." : String).toList),
  (("__new__" : String).toList,
    ("Create and return a new object.  See help(type) for accurate signature." : String).toList),
  (("__repr__" : String).toList, ("Return repr(self)." : String).toList),
  (("__setattr__" : String).toList, ("Implement setattr(self, name, value)." : String).toList),
  (("__str__" : String).toList, ("Return str(self)." : String).toList),
  (("__subclasshook__" : String).toList,
    ("Abstract classes can override this to customize issubclass().\n\nThis is invoked early on by abc.ABCMeta.__subclasscheck__().\nIt should return True, False or NotImplemented.  If it returns\nNotImplemented, the normal algorithm is used.  Otherwise, it\noverrides the normal algorithm (and the outcome is cached).\n" : String).toList)]

/-- The table selected on Python >= 3.7. -/
def filtered_builtin_functions_37 : List (Str × Str) :=
  filtered_builtin_functions_base ++ [
  (("__dir__" : String).toList, ("Default dir() implementation." : String).toList),
  (("__format__" : String).toList, ("Default object formatter." : String).toList),
  (("__reduce__" : String).toList, ("Helper for pickle." : String).toList),
  (("__reduce_ex__" : String).toList, ("Helper for pickle." : String).toList),
  (("__sizeof__" : String).toList, ("Size of object in memory, in bytes." : String).toList)]

/-- The table selected on Python 3.6. -/
def filtered_builtin_functions_36 : List (Str × Str) :=
  filtered_builtin_functions_base ++ [
  (("__dir__" : String).toList, ("__dir__() -> list\ndefault dir() implementation" : String).toList),
  (("__format__" : String).toList, ("default object formatter" : String).toList),
  (("__reduce__" : String).toList, ("helper for pickle" : String).toList),
  (("__reduce_ex__" : String).toList, ("helper for pickle" : String).toList),
  (("__sizeof__" : String).toList, ("__sizeof__() -> int\nsize of object in memory, in bytes" : String).toList)]

/-- Membership of a (name, docstring) pair in a table, Python's `in` on
the set of pairs. -/
def pairMem (t : List (Str × Str)) (n d : Str) : Bool :=
  t.any (fun e => e.1 == n && e.2 == d)

/-- The method filter of `render_class` (lines 903-908): a routine member
is kept unless `is_internal_function_name` rejects it or it is a
dunder-prefixed name whose docstring matches the table. -/
def keepClassMethod (table : List (Str × Str)) (name doc : Str) : Bool :=
  !(is_internal_function_name name) &&
    !(pyStartswith name ('_' :: ['_']) && pairMem table name doc)

/-! ## Pybind function extraction (python.py lines 443-521) -/

/-- One output parameter record built by `extract_function_doc` in the
pybind11 path. -/
structure PFParam where
  paramName : Str
  paramType : Option Str
  default : Str
  kind : Str
deriving DecidableEq, Repr

/-- The output function record of the pybind11 path of
`extract_function_doc` (the fields the claims are about). -/
structure PFunc where
  funcName : Str
  summary : Str
  retType : Option Str
  is_classmethod : Bool
  is_staticmethod : Bool
  params : List PFParam
  has_complex_params : Bool
deriving DecidableEq, Repr

def selfStr : Str := 's' :: 'e' :: 'l' :: ['f']

def starArgsStr : Str := '*' :: 'a' :: 'r' :: 'g' :: ['s']

def starKwargsStr : Str := '*' :: '*' :: 'k' :: 'w' :: 'a' :: 'r' :: 'g' :: ['s']

/-- Python truthiness of an optional string (`None` and `''` are falsy). -/
def strTruthy : Option Str → Bool
  | none => false
  | some s => !s.isEmpty

/-- `args and args[0][0] == 'self'`: the first parsed argument exists and
is literally named `self`. -/
def firstArgIsSelf (args : List PPArg) : Bool :=
  match args with
  | [] => false
  | a :: _ => a.argName == selfStr

/-- The sequential `arg0, arg1, ...` naming check of the positional-only
guess (lines 479-494), starting at index `i`. -/
def argIdxAll : List PPArg → Nat → Bool
  | [], _ => true
  | a :: t, i =>
    if a.argName == ('a' :: 'r' :: ['g'] ++ natDigits i) then argIdxAll t (i + 1)
    else false

/-- The all-or-nothing positional-only guess: for instance methods the
check skips the leading `self`, otherwise it covers every argument. -/
def pybindPositionalOnly (isInstanceMethod : Bool) (args : List PPArg) : Bool :=
  if isInstanceMethod then argIdxAll (args.drop 1) 0 else argIdxAll args 0

/-- The per-argument output record loop (lines 496-517): the `self`
parameter's type is suppressed, `*args`/`**kwargs` become variadic kinds,
everything else is positional-only or positional-or-keyword according to
the guess. -/
def mkPFParam (posOnly : Bool) (a : PPArg) : PFParam :=
  let ty := if a.argName == selfStr then none else a.argType
  let pname :=
    if a.argName == starArgsStr then ('a' :: 'r' :: 'g' :: ['s'])
    else if a.argName == starKwargsStr then ('k' :: 'w' :: 'a' :: 'r' :: 'g' :: ['s'])
    else a.argName
  let kind :=
    if a.argName == starArgsStr then ("VAR_POSITIONAL" : String).toList
    else if a.argName == starKwargsStr then ("VAR_KEYWORD" : String).toList
    else if posOnly then ("POSITIONAL_ONLY" : String).toList
    else ("POSITIONAL_OR_KEYWORD" : String).toList
  { paramName := pname
    paramType := ty
    default := htmlEscape (a.default.getD [])
    kind := kind }

/-- Embedding of one overload of the pybind11 path of
`extract_function_doc` (lines 446-519): `parentIsClass` is
`inspect.isclass(parent)`, `pathLast` is `path[-1]`, `t` one tuple from
`parse_pybind_docstring`.  There is no classmethod support; a routine is a
static method unless it is class-owned with a first parameter literally
named `self`. -/
def extract_function_doc_pybind (parentIsClass : Bool) (pathLast : Str)
    (t : PPSig) : PFunc :=
  let isInstance := parentIsClass && firstArgIsSelf t.args
  let posOnly := pybindPositionalOnly isInstance t.args
  { funcName := pathLast
    summary := t.summary
    retType := if t.ret == some (('N' : Char) :: 'o' :: 'n' :: ['e']) then none else t.ret
    is_classmethod := false
    is_staticmethod := !isInstance
    params := t.args.map (mkPFParam posOnly)
    has_complex_params := t.args.any (fun a => strTruthy a.argType || strTruthy a.default) }

/-! ## Class-page method buckets (python.py lines 913-921) -/

/-- The four method lists of a class page. -/
structure ClassPageMethods where
  classmethods : List PFunc
  staticmethods : List PFunc
  dunder_methods : List PFunc
  methods : List PFunc
deriving DecidableEq, Repr

/-- The bucket dispatch of `render_class`: dunder-prefixed name first, then
the classmethod flag, then the staticmethod flag, else instance method. -/
def addRoutineToPage (p : ClassPageMethods) (name : Str) (f : PFunc) :
    ClassPageMethods :=
  if pyStartswith name ('_' :: ['_']) then
    { p with dunder_methods := p.dunder_methods ++ [f] }
  else if f.is_classmethod then
    { p with classmethods := p.classmethods ++ [f] }
  else if f.is_staticmethod then
    { p with staticmethods := p.staticmethods ++ [f] }
  else
    { p with methods := p.methods ++ [f] }

inductive MethodBucket where
  | dunder
  | classm
  | staticm
  | instm
deriving DecidableEq, Repr

/-- The bucket a routine lands in, decided in the fixed order of the
`render_class` dispatch. -/
def classifyRoutine (name : Str) (f : PFunc) : MethodBucket :=
  if pyStartswith name ('_' :: ['_']) then .dunder
  else if f.is_classmethod then .classm
  else if f.is_staticmethod then .staticm
  else .instm

/-- Total number of routines stored on a class page. -/
def totalMethods (p : ClassPageMethods) : Nat :=
  p.classmethods.length + p.staticmethods.length + p.dunder_methods.length +
    p.methods.length

/-! ## Two-pass export mapping (python.py lines 664-697) -/

/-- A member reached through `__all__`: its export-list name, whether it is
a module, its `__name__` (modules), and its `__module__`/`__name__`
(non-modules; `moduleAttr = none` models a missing `__module__`). -/
structure ExportEntry where
  exportName : Str
  isModule : Bool
  moduleName : Str
  moduleAttr : Option Str
  objName : Str
deriving DecidableEq, Repr

/-- Key lookup in the registration table (`subname not in state.module_mapping`). -/
def containsKey (mp : List (Str × Str)) (k : Str) : Bool :=
  mp.any (fun pr => pr.1 == k)

/-- Registration of one `__all__` entry in the first pass of
`render_module` (lines 677-692): modules compare `__name__` against the
joined subpath, other objects with a `__module__` compare
`__module__ + '.' + __name__`; a differing natural name is registered,
asserting the key is new. -/
def registerExportEntry (path : List Str) (mapping : List (Str × Str))
    (e : ExportEntry) : Option (List (Str × Str)) :=
  let subpath := joinDot (path ++ [e.exportName])
  if e.isModule then
    if !(e.moduleName == subpath) then
      if containsKey mapping e.moduleName then none
      else some (mapping ++ [(e.moduleName, subpath)])
    else some mapping
  else
    match e.moduleAttr with
    | some ma =>
      let subname := ma ++ '.' :: e.objName
      if !(subname == subpath) then
        if containsKey mapping subname then none
        else some (mapping ++ [(subname, subpath)])
      else some mapping
    | none => some mapping

/-- The whole first pass over `__all__`: every entry is registered before
any member extraction of the list begins. -/
def buildExportMapping (path : List Str) :
    List ExportEntry → List (Str × Str) → Option (List (Str × Str))
  | [], mp => some mp
  | e :: es, mp =>
    match registerExportEntry path mp e with
    | none => none
    | some mp2 => buildExportMapping path es mp2

/-! ## The bracketed generic type grammar (for the `parse_pybind_type`
round-trip property)

`PType` is the grammar of C7: a type token `[a-zA-Z0-9_.]+`, optionally
followed by a bracketed `, `-separated list of inner types of the same
shape.  `PTypeList` is its (mutually defined) argument list. -/

mutual

inductive PType where
  | node : Str → PTypeList → PType
deriving DecidableEq

inductive PTypeList where
  | nil : PTypeList
  | cons : PType → PTypeList → PTypeList
deriving DecidableEq

end

mutual

/-- Grammar conformance: every token is a nonempty run of type characters. -/
def wfP : PType → Bool
  | .node tok args => !tok.isEmpty && tok.all isTypeChar && wfL args

def wfL : PTypeList → Bool
  | .nil => true
  | .cons a as => wfP a && wfL as

end

mutual

/-- Rendering of a grammar tree to its textual form, with every token
passed through `g` (use the identity for the source text, the Name Mapper
for the parser's output). -/
def renderG (g : Str → Str) : PType → Str
  | .node tok args => g tok ++ renderArgsG g args
termination_by t => sizeOf t

def renderArgsG (g : Str → Str) : PTypeList → Str
  | .nil => []
  | .cons a as => '[' :: (renderSeqG g a as ++ [']'])
termination_by l => sizeOf l

def renderSeqG (g : Str → Str) : PType → PTypeList → Str
  | a, .nil => renderG g a
  | a, .cons b bs => renderG g a ++ ',' :: ' ' :: renderSeqG g b bs
termination_by a as => sizeOf a + sizeOf as

end

/-- The source text of a grammar tree (tokens verbatim). -/
def renderP (t : PType) : Str := renderG (fun s => s) t

/-- The parser's output text: every token name-prefix-mapped. -/
def renderMapped (m : List (Str × Str)) (t : PType) : Str :=
  renderG (fun s => map_name_prefix m s) t

mutual

/-- A size measure used as fuel bound. -/
def sizeP : PType → Nat
  | .node _ args => 1 + sizeL args

def sizeL : PTypeList → Nat
  | .nil => 0
  | .cons a as => sizeP a + 1 + sizeL as

end

mutual

/-- Bracket-nesting depth of a grammar tree. -/
def nestP : PType → Nat
  | .node _ .nil => 0
  | .node _ (.cons a as) => 1 + nestSeq a as
termination_by t => sizeOf t

def nestSeq : PType → PTypeList → Nat
  | a, .nil => nestP a
  | a, .cons b bs => max (nestP a) (nestSeq b bs)
termination_by a as => sizeOf a + sizeOf as

end

/-- Maximum bracket-nesting depth of a string: running depth `cur`,
maximum seen `m`. -/
def depthAux : Str → Nat → Nat → Nat
  | [], _, m => m
  | c :: t, cur, m =>
    if c == '[' then depthAux t (cur + 1) (max m (cur + 1))
    else if c == ']' then depthAux t (cur - 1) m
    else depthAux t cur m

def maxDepth (s : Str) : Nat := depthAux s 0 0

/-- Boundary condition on the unconsumed remainder: it must not extend the
final token or open a bracket group of its own (e.g. `, `, `)`, `]`,
` -> `, a newline, or the end of input all qualify). -/
def restOk : Str → Bool
  | [] => true
  | c :: _ => !isTypeChar c && !(c == '[')

/-- The mapping-table hypothesis of C7: no registered replacement contains
a bracket (replacements are dotted module paths in the source). -/
def mappingBracketFree (m : List (Str × Str)) : Bool :=
  m.all (fun pr => pr.2.all (fun c => !(c == '[') && !(c == ']')))

/-- Modelled from the spec claim's words (C2): the degenerate summary is
"taken from the text following the first blank line if any (else empty)".
This definition follows the claim, to be compared against the code's
`degenSummary`. -/
def claimDegenSummary (orig : Str) : Str :=
  match findSub orig ('\n' :: ['\n']) with
  | none => []
  | some e => extractSummaryDoc (orig.drop (e + 2))

/-! # Theorems -/

/-! ## Generic list helpers -/

theorem takeWhile_append_all {p : Char → Bool} (xs ys : Str)
    (h : xs.all p) : (xs ++ ys).takeWhile p = xs ++ ys.takeWhile p := by
  induction xs with
  | nil => simp
  | cons c t ih =>
    simp only [List.all_cons, Bool.and_eq_true] at h
    simp [List.takeWhile, h.1, ih h.2]

theorem dropWhile_append_all {p : Char → Bool} (xs ys : Str)
    (h : xs.all p) : (xs ++ ys).dropWhile p = ys.dropWhile p := by
  induction xs with
  | nil => simp
  | cons c t ih =>
    simp only [List.all_cons, Bool.and_eq_true] at h
    simp [List.dropWhile, h.1, ih h.2]

theorem restOk_takeWhile (ys : Str) (h : restOk ys = true) :
    ys.takeWhile isTypeChar = [] := by
  cases ys with
  | nil => rfl
  | cons c t =>
    simp only [restOk, Bool.and_eq_true, Bool.not_eq_true'] at h
    simp [List.takeWhile, h.1]

theorem restOk_dropWhile (ys : Str) (h : restOk ys = true) :
    ys.dropWhile isTypeChar = ys := by
  cases ys with
  | nil => rfl
  | cons c t =>
    simp only [restOk, Bool.and_eq_true, Bool.not_eq_true'] at h
    simp [List.dropWhile, h.1]

theorem isPrefixOf_append_self (l r : List Char) : l.isPrefixOf (l ++ r) = true := by
  induction l with
  | nil => simp [List.isPrefixOf]
  | cons c t ih => simp [List.isPrefixOf, ih]

/-! ## C1: `map_name_prefix` lookup semantics -/

theorem map_name_prefix_find_none (mapping : List (Str × Str)) (n : Str)
    (h : mapping.find? (fun pr => matchesKeyB pr.1 n) = none) :
    map_name_prefix mapping n = n := by
  induction mapping with
  | nil => rfl
  | cons hd tl ih =>
    obtain ⟨p, r⟩ := hd
    by_cases hm : matchesKeyB p n
    · simp [List.find?, hm] at h
    · simp only [ map_name_prefix, hm, if_false]
      apply ih
      simpa [List.find?, hm] using h

theorem map_name_prefix_find_some (mapping : List (Str × Str)) (n p r : Str)
    (h : mapping.find? (fun pr => matchesKeyB pr.1 n) = some (p, r)) :
    map_name_prefix mapping n = r ++ n.drop p.length := by
  induction mapping with
  | nil => simp [List.find?] at h
  | cons hd tl ih =>
    obtain ⟨p', r'⟩ := hd
    by_cases hm : matchesKeyB p' n
    · rw [List.find?_cons_of_pos _ (by simpa using hm)] at h
      obtain ⟨hp, hr⟩ := Prod.mk.injEq .. ▸ (Option.some.injEq .. ▸ h)
      simp only [ map_name_prefix, hm, if_true]
      rw [hp, hr]
    · rw [List.find?_cons_of_neg _ (by simpa using hm)] at h
      simp only [ map_name_prefix, hm, if_false]
      exact ih h

/-- C1: for every registered mapping table and every name `n`,
`map_name_prefix` returns `replacement ++ n[len(key):]` for the first
registered key matching `n` (a key matches iff `n` equals it or starts
with it followed by `.`), returns `n` unchanged when no registered key
matches, and in particular returns `n` when no key is a dotted-segment
prefix of `n`. -/
theorem map_name_prefix_correct (mapping : List (Str × Str)) (n : Str) :
    (mapping.find? (fun pr => matchesKeyB pr.1 n) = none →
      map_name_prefix mapping n = n) ∧
    (∀ p r, mapping.find? (fun pr => matchesKeyB pr.1 n) = some (p, r) →
      map_name_prefix mapping n = r ++ n.drop p.length) ∧
    ((∀ pr ∈ mapping, matchesKeyB pr.1 n = false) →
      map_name_prefix mapping n = n) := by
  refine ⟨map_name_prefix_find_none mapping n,
    fun p r h => map_name_prefix_find_some mapping n p r h, fun h => ?_⟩
  apply map_name_prefix_find_none
  rw [List.find?_eq_none]
  intro pr hpr
  simp [h pr hpr]

/-- C1 witness: the mapping `pkg ↦ mod` rewrites `pkg.x` to `mod.x`, and
the table whose single key does not match leaves `other.y` unchanged. -/
theorem map_name_prefix_correct_witness :
    map_name_prefix [(('p' :: 'k' :: ['g'] : Str), ('m' :: 'o' :: ['d'] : Str))]
        ('p' :: 'k' :: 'g' :: '.' :: ['x']) =
      ('m' :: 'o' :: 'd' :: '.' :: ['x']) ∧
    map_name_prefix [(('p' :: 'k' :: ['g'] : Str), ('m' :: 'o' :: ['d'] : Str))]
        ('o' :: 't' :: 'h' :: 'e' :: 'r' :: '.' :: ['y']) =
      ('o' :: 't' :: 'h' :: 'e' :: 'r' :: '.' :: ['y']) := by
  constructor
  · exact (map_name_prefix_correct _ _).2.1 ('p' :: 'k' :: ['g'])
      ('m' :: 'o' :: ['d']) (by decide)
  · exact (map_name_prefix_correct _ _).1 (by decide)

/-! ## C10: overlapping keys, first registration wins -/

/-- C10: when two registered keys both match the same name (for instance
one key a dotted prefix of the other), `map_name_prefix` scans the table
in registration order and the earliest-registered matching key wins,
whatever matching keys occur later in the table. -/
theorem map_name_prefix_first_registered_wins (p1 r1 p2 r2 : Str)
    (mid : List (Str × Str)) (n : Str)
    (h1 : matchesKeyB p1 n = true) (_h2 : matchesKeyB p2 n = true) :
    map_name_prefix (((p1, r1) :: mid) ++ [(p2, r2)]) n =
      r1 ++ n.drop p1.length := by
  simp [ map_name_prefix, h1]

/-- C10 witness: keys `a` and `a.b` both match `a.b.c`; with `a` registered
first the result is its replacement `x` plus `.b.c`. -/
theorem map_name_prefix_first_registered_wins_witness :
    map_name_prefix [((['a'] : Str), (['x'] : Str)),
        (('a' :: '.' :: ['b'] : Str), (['y'] : Str))]
      ('a' :: '.' :: 'b' :: '.' :: ['c']) = ('x' :: '.' :: 'b' :: '.' :: ['c']) := by
  exact map_name_prefix_first_registered_wins ['a'] ['x'] ('a' :: '.' :: ['b']) ['y']
    [] ('a' :: '.' :: 'b' :: '.' :: ['c']) (by decide) (by decide)

/-! ## C4: underscore privacy rules -/

/-- C4 counterexample: the dunder module member `__version__`, genuinely
owned by the enclosing module (its mapped `__module__` equals the path), is
excluded by `is_internal_or_imported_module_member`, although the
class-page rule `is_internal_function_name` would keep it — the dunder
exemption does not apply to module members. -/
theorem dunder_module_member_excluded_cex :
    is_internal_function_name (("__version__" : String).toList) = false ∧
    isDunderName (("__version__" : String).toList) = true ∧
    is_internal_or_imported_module_member false []
      (some (('p' :: 'k' :: ['g'] : Str))) [('p' :: 'k' :: ['g'])]
      (("__version__" : String).toList)
      ⟨false, some ('p' :: 'k' :: ['g']), none⟩ = true := by
  decide

/-- C4 amended: a candidate member whose name begins with an underscore
and is not a dunder name is excluded everywhere; the dunder exemption
holds only for the class-page routine rule `is_internal_function_name`;
module members are excluded by the general privacy rule whenever the name
begins with an underscore, dunder or not. -/
theorem underscore_visibility_rules (name : Str) :
    is_internal_function_name name =
      (pyStartswith name ['_'] && !(isDunderName name)) ∧
    (isDunderName name = true → is_internal_function_name name = false) ∧
    (∀ compat mapping pp path obj, pyStartswith name ['_'] = true →
      is_internal_or_imported_module_member compat mapping pp path name obj = true) := by
  refine ⟨rfl, fun h => ?_, fun compat mapping pp path obj h => ?_⟩
  · have h1 : is_internal_function_name name =
        (pyStartswith name ['_'] && !(isDunderName name)) := rfl
    rw [h1, h]
    simp
  · simp [is_internal_or_imported_module_member, h]

/-- C4 witness: `_private` is excluded in both modes, `__x__` is kept by
the class-page rule. -/
theorem underscore_visibility_rules_witness :
    is_internal_or_imported_module_member false [] none []
      ('_' :: ['x']) ⟨false, none, none⟩ = true ∧
    is_internal_function_name ('_' :: '_' :: 'x' :: '_' :: ['_']) = false := by
  constructor
  · exact (underscore_visibility_rules ('_' :: ['x'])).2.2 false [] none []
      ⟨false, none, none⟩ (by decide)
  · exact (underscore_visibility_rules ('_' :: '_' :: 'x' :: '_' :: ['_'])).2.1 (by decide)

/-! ## C5: class-page method buckets -/

/-- C5: every routine member of a class page lands in exactly one of the
four buckets (classmethods, staticmethods, dunder methods, instance
methods), the dispatch is the fixed order dunder-prefixed name first, then
the classmethod flag, then the staticmethod flag, else instance method,
and adding a routine grows the total bucket content by exactly one. -/
theorem class_page_method_partition (p : ClassPageMethods) (name : Str) (f : PFunc) :
    (addRoutineToPage p name f =
      match classifyRoutine name f with
      | .dunder => { p with dunder_methods := p.dunder_methods ++ [f] }
      | .classm => { p with classmethods := p.classmethods ++ [f] }
      | .staticm => { p with staticmethods := p.staticmethods ++ [f] }
      | .instm => { p with methods := p.methods ++ [f] }) ∧
    totalMethods (addRoutineToPage p name f) = totalMethods p + 1 ∧
    (classifyRoutine name f = .dunder ↔
      pyStartswith name ('_' :: ['_']) = true) ∧
    (classifyRoutine name f = .classm ↔
      (pyStartswith name ('_' :: ['_']) = false ∧ f.is_classmethod = true)) ∧
    (classifyRoutine name f = .staticm ↔
      (pyStartswith name ('_' :: ['_']) = false ∧ f.is_classmethod = false ∧
        f.is_staticmethod = true)) ∧
    (classifyRoutine name f = .instm ↔
      (pyStartswith name ('_' :: ['_']) = false ∧ f.is_classmethod = false ∧
        f.is_staticmethod = false)) := by
  cases hd : pyStartswith name ('_' :: ['_']) <;>
    cases hc : f.is_classmethod <;>
      cases hs : f.is_staticmethod <;>
        refine ⟨by simp [addRoutineToPage, classifyRoutine, hd, hc, hs],
          by simp [addRoutineToPage, totalMethods, hd, hc, hs]; omega,
          by simp [classifyRoutine, hd, hc, hs],
          by simp [classifyRoutine, hd, hc, hs],
          by simp [classifyRoutine, hd, hc, hs],
          by simp [classifyRoutine, hd, hc, hs]⟩

/-- C5 witness: a dunder-named classmethod-flagged routine goes to the
dunder bucket (name checked first), and an unflagged plain-named routine
goes to the instance bucket. -/
theorem class_page_method_partition_witness :
    classifyRoutine (('_' :: '_' :: 'i' :: 'n' :: 'i' :: 't' :: '_' :: ['_'] : Str))
      { funcName := ['f'], summary := [], retType := none, is_classmethod := true,
        is_staticmethod := false, params := [], has_complex_params := false }
      = MethodBucket.dunder ∧
    classifyRoutine (('r' :: 'u' :: ['n'] : Str))
      { funcName := ['f'], summary := [], retType := none, is_classmethod := false,
        is_staticmethod := false, params := [], has_complex_params := false }
      = MethodBucket.instm := by
  constructor
  · exact (class_page_method_partition ⟨[], [], [], []⟩ _ _).2.2.1.mpr (by decide)
  · exact (class_page_method_partition ⟨[], [], [], []⟩ _ _).2.2.2.2.2.mpr
      (by refine ⟨by decide, rfl, rfl⟩)

/-! ## C6: two-pass export mapping -/

/-- C6: a non-module export-list entry whose natural qualified name
`__module__ + '.' + __name__` differs from its list-position path is
registered by the first pass of `render_module`, and the resulting mapping
rewrites both the natural name and any dotted extension of it (such as a
method) to the public path. -/
theorem export_mapping_two_pass (path : List Str) (pname ma oname : Str)
    (h : (ma ++ '.' :: oname == joinDot (path ++ [pname])) = false) :
    buildExportMapping path [⟨pname, false, [], some ma, oname⟩] [] =
      some [(ma ++ '.' :: oname, joinDot (path ++ [pname]))] ∧
    map_name_prefix [(ma ++ '.' :: oname, joinDot (path ++ [pname]))]
        (ma ++ '.' :: oname) = joinDot (path ++ [pname]) ∧
    map_name_prefix [(ma ++ '.' :: oname, joinDot (path ++ [pname]))]
        ((ma ++ '.' :: oname) ++ '.' :: ('m' :: 'e' :: 't' :: 'h' :: 'o' :: ['d'])) =
      joinDot (path ++ [pname]) ++ '.' :: ('m' :: 'e' :: 't' :: 'h' :: 'o' :: ['d']) := by
  refine ⟨?_, ?_, ?_⟩
  · simp [buildExportMapping, registerExportEntry, containsKey, h]
  · simp [ map_name_prefix, matchesKeyB]
  · have hne : ((ma ++ '.' :: oname) ++ '.' ::
        ('m' :: 'e' :: 't' :: 'h' :: 'o' :: ['d']) == ma ++ '.' :: oname) = false := by
      rw [beq_eq_false_iff_ne]
      intro he
      have := congrArg List.length he
      simp at this
    have hpre : ((ma ++ '.' :: oname) ++ ['.']).isPrefixOf
        ((ma ++ '.' :: oname) ++ '.' ::
          ('m' :: 'e' :: 't' :: 'h' :: 'o' :: ['d'])) = true := by
      have : (ma ++ '.' :: oname) ++ '.' ::
          ('m' :: 'e' :: 't' :: 'h' :: 'o' :: ['d']) =
          ((ma ++ '.' :: oname) ++ ['.']) ++
            ('m' :: 'e' :: 't' :: 'h' :: 'o' :: ['d']) := by simp
      rw [this]
      exact isPrefixOf_append_self _ _
    simp only [ map_name_prefix, matchesKeyB, hne, hpre, Bool.false_or, if_true]
    rw [List.drop_left]

/-- C6 witness: the export list `['Pub']` on module `root`, with `Pub`
natively named `pkg._impl.Pub`, maps `pkg._impl.Pub` to `root.Pub` and
`pkg._impl.Pub.method` to `root.Pub.method`. -/
theorem export_mapping_two_pass_witness :
    map_name_prefix [((("pkg._impl" : String).toList ++ '.' :: (("Pub" : String).toList)),
        joinDot ([(("root" : String).toList)] ++ [(("Pub" : String).toList)]))]
        ((("pkg._impl" : String).toList ++ '.' :: (("Pub" : String).toList))) =
      joinDot ([(("root" : String).toList)] ++ [(("Pub" : String).toList)]) ∧
    map_name_prefix [((("pkg._impl" : String).toList ++ '.' :: (("Pub" : String).toList)),
        joinDot ([(("root" : String).toList)] ++ [(("Pub" : String).toList)]))]
        ((("pkg._impl" : String).toList ++ '.' :: (("Pub" : String).toList)) ++
          '.' :: ('m' :: 'e' :: 't' :: 'h' :: 'o' :: ['d'])) =
      joinDot ([(("root" : String).toList)] ++ [(("Pub" : String).toList)]) ++
        '.' :: ('m' :: 'e' :: 't' :: 'h' :: 'o' :: ['d']) := by
  have h := export_mapping_two_pass [(("root" : String).toList)]
    (("Pub" : String).toList) (("pkg._impl" : String).toList)
    (("Pub" : String).toList) (by decide)
  exact ⟨h.2.1, h.2.2⟩

/-! ## C8: `self` marks an instance method in the pybind path -/

/-- C8: in the pybind extraction path, a class-owned callable whose first
parsed parameter is literally `self` is an instance method
(`is_staticmethod = false`, `is_classmethod = false`) and the `self`
parameter's type annotation is suppressed in the output; a class-owned
callable whose first parameter is not `self`, and every module-level
callable, is marked a static method. -/
theorem pybind_self_instance_method (pc : Bool) (pathLast : Str) (t : PPSig) :
    (extract_function_doc_pybind pc pathLast t).is_classmethod = false ∧
    (extract_function_doc_pybind pc pathLast t).is_staticmethod =
      !(pc && firstArgIsSelf t.args) ∧
    (pc = true → firstArgIsSelf t.args = true →
      (extract_function_doc_pybind pc pathLast t).is_staticmethod = false) ∧
    (pc = false →
      (extract_function_doc_pybind pc pathLast t).is_staticmethod = true) ∧
    (firstArgIsSelf t.args = false →
      (extract_function_doc_pybind pc pathLast t).is_staticmethod = true) ∧
    (∀ (i : Nat) (a : PPArg), t.args[i]? = some a → a.argName = selfStr →
      (extract_function_doc_pybind pc pathLast t).params[i]?.map
        (fun p => p.paramType) = some none) := by
  refine ⟨rfl, rfl, fun h1 h2 => ?_, fun h1 => ?_, fun h1 => ?_, fun i a hi ha => ?_⟩
  · simp [extract_function_doc_pybind, h1, h2]
  · simp [extract_function_doc_pybind, h1]
  · simp [extract_function_doc_pybind, h1]
  · simp [extract_function_doc_pybind, List.getElem?_map, hi, mkPFParam, ha]

/-- C8 witness: a class-owned callable parsed as `(self: Foo, arg0: int)`
is an instance method with the `self` type suppressed; a class-owned
callable whose first parameter is `x` (no `self` anywhere) is static; and
the same self-led signature at module level (parent not a class) is
static. -/
theorem pybind_self_instance_method_witness :
    (extract_function_doc_pybind true (('m' :: 'e' :: 't' :: ['h'] : Str))
      { sigName := ('m' :: 'e' :: 't' :: ['h']), summary := [],
        args := [⟨selfStr, some (('F' :: 'o' :: ['o'] : Str)), none⟩,
          ⟨('a' :: 'r' :: 'g' :: ['0']), some (('i' :: 'n' :: ['t'] : Str)), none⟩],
        ret := none, degenerate := false, warnings := [] }).is_staticmethod = false ∧
    ((extract_function_doc_pybind true (('m' :: 'e' :: 't' :: ['h'] : Str))
      { sigName := ('m' :: 'e' :: 't' :: ['h']), summary := [],
        args := [⟨selfStr, some (('F' :: 'o' :: ['o'] : Str)), none⟩,
          ⟨('a' :: 'r' :: 'g' :: ['0']), some (('i' :: 'n' :: ['t'] : Str)), none⟩],
        ret := none, degenerate := false, warnings := [] }).params[0]?.map
      (fun p => p.paramType) = some none) ∧
    (extract_function_doc_pybind true (('f' :: ['n'] : Str))
      { sigName := ('f' :: ['n']), summary := [],
        args := [⟨(['x'] : Str), some (('i' :: 'n' :: ['t'] : Str)), none⟩],
        ret := none, degenerate := false, warnings := [] }).is_staticmethod = true ∧
    (extract_function_doc_pybind false (('f' :: ['n'] : Str))
      { sigName := ('f' :: ['n']), summary := [],
        args := [⟨selfStr, none, none⟩],
        ret := none, degenerate := false, warnings := [] }).is_staticmethod = true := by
  have h1 := pybind_self_instance_method true (('m' :: 'e' :: 't' :: ['h'] : Str))
    { sigName := ('m' :: 'e' :: 't' :: ['h']), summary := [],
      args := [⟨selfStr, some (('F' :: 'o' :: ['o'] : Str)), none⟩,
        ⟨('a' :: 'r' :: 'g' :: ['0']), some (('i' :: 'n' :: ['t'] : Str)), none⟩],
      ret := none, degenerate := false, warnings := [] }
  have h2 := pybind_self_instance_method true (('f' :: ['n'] : Str))
    { sigName := ('f' :: ['n']), summary := [],
      args := [⟨(['x'] : Str), some (('i' :: 'n' :: ['t'] : Str)), none⟩],
      ret := none, degenerate := false, warnings := [] }
  have h3 := pybind_self_instance_method false (('f' :: ['n'] : Str))
    { sigName := ('f' :: ['n']), summary := [],
      args := [⟨selfStr, none, none⟩],
      ret := none, degenerate := false, warnings := [] }
  exact ⟨h1.2.2.1 rfl (by decide),
    h1.2.2.2.2.2 0 ⟨selfStr, some (('F' :: 'o' :: ['o'] : Str)), none⟩ (by rfl) (by rfl),
    h2.2.2.2.2.1 (by decide),
    h3.2.2.2.1 rfl⟩

/-! ## C9: known autogenerated dunder docstring filtering -/

theorem pairMem_exists (t : List (Str × Str)) (n d : Str) :
    pairMem t n d = true ↔ ∃ e ∈ t, e.1 = n ∧ e.2 = d := by
  simp [pairMem, List.any_eq_true, beq_iff_eq]

theorem pairMem_false_of_all (t : List (Str × Str)) (n0 d0 d : Str)
    (hall : t.all (fun e => !(e.1 == n0) || (e.2 == d0)) = true)
    (hd : d ≠ d0) : pairMem t n0 d = false := by
  rw [Bool.eq_false_iff]
  intro hmem
  obtain ⟨e, he, hn, hdd⟩ := (pairMem_exists t n0 d).mp hmem
  rw [List.all_eq_true] at hall
  have := hall e he
  simp only [Bool.or_eq_true, Bool.not_eq_true', beq_eq_false_iff_ne, beq_iff_eq] at this
  rcases this with hne | heq
  · exact hne hn
  · exact hd (hdd ▸ heq ▸ rfl)

/-- C9: on a class page, a member whose name and exact docstring both
match an entry of the version-selected known-dunder-docstring table is
excluded, while a member whose (dunder) name is in the table but whose
docstring text differs is kept; in particular `__repr__` with the generic
text `Return repr(self).` is excluded and `__repr__` with any other text
is included.  Holds for both the Python 3.7+ and the 3.6 table. -/
theorem dunder_docstring_filter (table : List (Str × Str))
    (ht : table = filtered_builtin_functions_37 ∨
      table = filtered_builtin_functions_36) :
    (∀ n d, pairMem table n d = true → keepClassMethod table n d = false) ∧
    (∀ n d, isDunderName n = true → pairMem table n d = false →
      keepClassMethod table n d = true) ∧
    keepClassMethod table (("__repr__" : String).toList)
      (("Return repr(self)." : String).toList) = false ∧
    (∀ d, d ≠ (("Return repr(self)." : String).toList) →
      keepClassMethod table (("__repr__" : String).toList) d = true) := by
  have hdund : table.all (fun e => pyStartswith e.1 ('_' :: ['_'])) = true := by
    rcases ht with h | h <;> rw [h] <;> decide
  refine ⟨fun n d hmem => ?_, fun n d hdun hmem => ?_, ?_, fun d hd => ?_⟩
  · obtain ⟨e, he, hn, _⟩ := (pairMem_exists table n d).mp hmem
    rw [List.all_eq_true] at hdund
    have hstart : pyStartswith n ('_' :: ['_']) = true := hn ▸ hdund e he
    simp [keepClassMethod, hstart, hmem]
  · have hint : is_internal_function_name n = false := by
      have h1 : is_internal_function_name n =
          (pyStartswith n ['_'] && !(isDunderName n)) := rfl
      rw [h1, hdun]
      simp
    simp [keepClassMethod, hint, hmem]
  · rcases ht with h | h <;> rw [h] <;> decide
  · have hmem : pairMem table (("__repr__" : String).toList) d = false := by
      apply pairMem_false_of_all table _ (("Return repr(self)." : String).toList) d _ hd
      rcases ht with h | h <;> rw [h] <;> decide
    have hdun : isDunderName (("__repr__" : String).toList) = true := by decide
    have hint : is_internal_function_name (("__repr__" : String).toList) = false := by
      decide
    simp only [keepClassMethod, hint, hmem, Bool.not_false, Bool.and_false,
      Bool.true_and, Bool.and_true]

/-- C9 witness: in the 3.7+ table, `__repr__` with the generic docstring
is excluded and `__repr__` with a custom docstring is kept. -/
theorem dunder_docstring_filter_witness :
    keepClassMethod filtered_builtin_functions_37 (("__repr__" : String).toList)
      (("Return repr(self)." : String).toList) = false ∧
    keepClassMethod filtered_builtin_functions_37 (("__repr__" : String).toList)
      (("Custom repr." : String).toList) = true := by
  have h := dunder_docstring_filter filtered_builtin_functions_37 (Or.inl rfl)
  exact ⟨h.2.2.1, h.2.2.2 _ (by decide)⟩

/-! ## C2: the parse-failure (degenerate) path of `parse_pybind_signature` -/

theorem ppOk_not_degenerate (name summary : Str) (args : List PPArg)
    (ret : Option Str) (r : PPSig) (h : ppOk name summary args ret = some r) :
    r.degenerate = false := by
  cases h
  rfl

theorem ppDegen_fields (orig name : Str) (r : PPSig)
    (h : ppDegen orig name = some r) :
    r.sigName = name ∧ r.summary = degenSummary orig ∧
    r.args = [⟨elli, none, none⟩] ∧ r.ret = none ∧
    r.warnings = [orig.takeWhile (fun c => !(c == '\n'))] := by
  cases h
  exact ⟨rfl, rfl, rfl, rfl, rfl⟩

theorem ppAfterRet_degenerate (orig name : Str) (args : List PPArg)
    (ret : Option Str) (s2 : Str) (r : PPSig)
    (h : ppAfterRet orig name args ret s2 = some r) (hd : r.degenerate = true) :
    r.sigName = name ∧ r.summary = degenSummary orig ∧
    r.args = [⟨elli, none, none⟩] ∧ r.ret = none ∧
    r.warnings = [orig.takeWhile (fun c => !(c == '\n'))] := by
  unfold ppAfterRet at h
  split at h
  · exact absurd hd (by rw [ppOk_not_degenerate _ _ _ _ _ h]; simp)
  · split at h
    · exact ppDegen_fields orig name r h
    · split at h
      · exact absurd hd (by rw [ppOk_not_degenerate _ _ _ _ _ h]; simp)
      · split at h
        · exact absurd hd (by rw [ppOk_not_degenerate _ _ _ _ _ h]; simp)
        · exact absurd hd (by rw [ppOk_not_degenerate _ _ _ _ _ h]; simp)

theorem ppFinish_degenerate (m : List (Str × Str)) (orig name : Str)
    (args : List PPArg) (rest : Str) (r : PPSig)
    (h : ppFinish m orig name args rest = some r) (hd : r.degenerate = true) :
    r.sigName = name ∧ r.summary = degenSummary orig ∧
    r.args = [⟨elli, none, none⟩] ∧ r.ret = none ∧
    r.warnings = [orig.takeWhile (fun c => !(c == '\n'))] := by
  unfold ppFinish at h
  split at h
  · split at h
    · exact absurd h (by simp)
    · exact ppAfterRet_degenerate orig name args _ _ r h hd
  · exact ppAfterRet_degenerate orig name args _ _ r h hd

theorem ppArgsLoop_degenerate (m : List (Str × Str)) (orig name : Str) :
    ∀ (fuel : Nat) (sig : Str) (args : List PPArg) (r : PPSig),
    ppArgsLoop m orig name fuel sig args = some r → r.degenerate = true →
    r.sigName = name ∧ r.summary = degenSummary orig ∧
    r.args = [⟨elli, none, none⟩] ∧ r.ret = none ∧
    r.warnings = [orig.takeWhile (fun c => !(c == '\n'))] := by
  intro fuel
  induction fuel with
  | zero =>
    intro sig args r h _
    exact absurd h (by simp [ppArgsLoop])
  | succ f ih =>
    intro sig args r h hd
    unfold ppArgsLoop at h
    split at h
    · exact absurd h (by simp)
    · split at h
      · exact ppFinish_degenerate m orig name _ _ r h hd
      · split at h
        · exact absurd h (by simp)
        · split at h
          · exact absurd h (by simp)
          · split at h
            · exact absurd h (by simp)
            · split at h
              · exact absurd h (by simp)
              · split at h
                · exact ppFinish_degenerate m orig name _ _ r h hd
                · split at h
                  · exact ih _ _ r h hd
                  · exact ppDegen_fields orig name r h

/-- C2 (amended): whenever `parse_pybind_signature` returns through one of
its two parse-failure sites (after consuming arguments the next characters
are neither `, ` nor `)`, or non-newline characters remain after the
optional return type), it does not raise: it returns the degenerate tuple
`(name, summary, [('…', None, None)], None)` whose name is the leading
`[a-zA-Z0-9_]*` run of the input, logs exactly one warning whose payload is
the input truncated at its first line break, and computes the summary by
the code's rule: the text from the first line break on is used only when
that line break is immediately followed by a second newline (a blank line
directly after the first line), and the summary is empty otherwise. -/
theorem parse_pybind_signature_degenerate (m : List (Str × Str)) (fuel : Nat)
    (s : Str) (r : PPSig) (h : parse_pybind_signature m fuel s = some r)
    (hd : r.degenerate = true) :
    r.sigName = s.takeWhile isNameChar ∧ r.summary = degenSummary s ∧
    r.args = [⟨elli, none, none⟩] ∧ r.ret = none ∧
    r.warnings = [s.takeWhile (fun c => !(c == '\n'))] := by
  unfold parse_pybind_signature at h
  split at h
  · exact absurd h (by simp)
  · split at h
    · exact ppArgsLoop_degenerate m s _ fuel _ [] r h hd
    · exact absurd h (by simp)

/-- C2 witness: `foo(a!` followed by more text hits the first failure site
and yields the degenerate tuple with name `foo`, warning `foo(a!` and an
empty summary. -/
theorem parse_pybind_signature_degenerate_witness :
    degenSummary (("foo(a!\nmore" : String).toList) = [] ∧
    { sigName := (("foo" : String).toList), summary := [],
      args := [⟨elli, none, none⟩], ret := none, degenerate := true,
      warnings := [(("foo(a!" : String).toList)] : PPSig }.sigName =
      (("foo(a!\nmore" : String).toList).takeWhile isNameChar := by
  have h := parse_pybind_signature_degenerate [] 50 (("foo(a!\nmore" : String).toList)
    { sigName := (("foo" : String).toList), summary := [],
      args := [⟨elli, none, none⟩], ret := none, degenerate := true,
      warnings := [(("foo(a!" : String).toList)] }
    (by decide) (by rfl)
  exact ⟨by decide, h.1⟩

/-- C2 counterexample: on `foo(a!\nmore\n\nHello` the parser aborts at the
first failure site, and the input does contain a blank line (followed by
`Hello`), yet the returned summary is empty — the code uses the text after
the first line break only when that break is immediately followed by a
second newline, not the text following the first blank line wherever it
occurs, contradicting the claim's summary rule. -/
theorem parse_pybind_signature_summary_cex :
    (parse_pybind_signature [] 50 (("foo(a!\nmore\n\nHello" : String).toList)).map
      (fun r => (r.degenerate, r.summary)) = some (true, []) ∧
    claimDegenSummary (("foo(a!\nmore\n\nHello" : String).toList) =
      (("Hello" : String).toList) ∧
    ([] : Str) ≠ (("Hello" : String).toList) := by
  decide

/-! ## C3: `parse_pybind_docstring` overload splitting -/

/-- C3 counterexample: when the docstring ends right after the last
overload (no trailing newline), the code slices the final block with
`doc[...:-1]` — up to the input's last character, not to the end of input —
so `1. f(x: int) -> int` loses its final `t` and the parsed return type is
`in`; parsing the block sliced to the end of input (as the claim states)
gives `int`. -/
theorem parse_pybind_docstring_last_slice_cex :
    (parse_pybind_docstring [] 5 300 (("f" : String).toList)
        (("f(*args, **kwargs)\nOverloaded function.\n\n1. f(x: int) -> int" : String).toList)).map
      (fun l => l.map (fun t => t.ret)) = some [some (("in" : String).toList)] ∧
    (parse_pybind_signature [] 300 (("f(x: int) -> int" : String).toList)).map
      (fun t => t.ret) = some (some (("int" : String).toList)) ∧
    some (("in" : String).toList) ≠ some (("int" : String).toList) := by
  decide

theorem take_append_exact (l1 l2 : Str) (i : Nat) :
    (l1 ++ l2).take (l1.length + i) = l1 ++ l2.take i := by
  simp [List.take_append_eq_append_take]

theorem overloadMarker_one (name : Str) :
    overloadMarker 1 name = '1' :: '.' :: ' ' :: (name ++ ['(']) := by
  simp [overloadMarker, (by decide : natDigits 1 = ['1'])]

theorem overloadMarker_two (name : Str) :
    overloadMarker 2 name = '2' :: '.' :: ' ' :: (name ++ ['(']) := by
  simp [overloadMarker, (by decide : natDigits 2 = ['2'])]

theorem chunk_first_block (name b1 X : Str) :
    ((overloadMarker 1 name ++ (b1 ++ X)).take
      ((overloadMarker 1 name).length + b1.length)).drop ((natDigits 1).length + 2) =
    name ++ '(' :: b1 := by
  rw [← List.append_assoc, ← List.length_append, List.take_left]
  rw [show (natDigits 1).length + 2 = 3 by decide]
  rw [show overloadMarker 1 name ++ b1 = '1' :: '.' :: ' ' :: ((name ++ ['(']) ++ b1) by
    simp [overloadMarker_one]]
  simp

theorem drop_to_second_block (name b1 X : Str) :
    (overloadMarker 1 name ++ (b1 ++ X)).drop
      ((overloadMarker 1 name).length + b1.length) = X := by
  rw [← List.append_assoc, ← List.length_append, List.drop_left]

theorem chunk_last_block (name b2 : Str) (hb2 : b2 ≠ []) :
    ((overloadMarker 2 name ++ b2).take
      ((overloadMarker 2 name ++ b2).length - 1)).drop ((natDigits 2).length + 2) =
    name ++ '(' :: b2.dropLast := by
  have h1 : 1 ≤ b2.length := List.length_pos.mpr hb2
  have hl : (overloadMarker 2 name ++ b2).length - 1 =
      (overloadMarker 2 name).length + (b2.length - 1) := by
    rw [List.length_append]
    omega
  rw [hl, take_append_exact, ← List.dropLast_eq_take]
  rw [show (natDigits 2).length + 2 = 3 by decide]
  rw [show overloadMarker 2 name ++ b2.dropLast =
      '2' :: '.' :: ' ' :: ((name ++ ['(']) ++ b2.dropLast) by
    simp [overloadMarker_two]]
  simp

/-- C3 (amended): for a docstring beginning with the literal overload
header, `parse_pybind_docstring` returns one parsed-signature tuple per
numbered block `<N>. <name>(`, for ascending `N` starting at 1, in that
order; each block is sliced up to the next numbered marker, and the last
block is sliced up to the end of the input excluding its final character
(the code slices with the `-1` returned by `find`).  Stated here for two
overload blocks with arbitrary bodies: the hypotheses pin down where the
markers occur and what each sliced block parses to. -/
theorem parse_pybind_docstring_two_overloads (m : List (Str × Str))
    (sf lf : Nat) (name b1 b2 : Str) (t1 t2 : PPSig) (hb2 : b2 ≠ [])
    (h1 : findSub (overloadMarker 1 name ++ (b1 ++ (overloadMarker 2 name ++ b2)))
      (overloadMarker 2 name) = some ((overloadMarker 1 name).length + b1.length))
    (h2 : findSub (overloadMarker 2 name ++ b2) (overloadMarker 3 name) = none)
    (h3 : parse_pybind_signature m sf (name ++ '(' :: b1) = some t1)
    (h4 : t1.sigName = name)
    (h5 : parse_pybind_signature m sf (name ++ '(' :: b2.dropLast) = some t2)
    (h6 : t2.sigName = name) :
    parse_pybind_docstring m (lf + 2) sf name
      (overloadHeader name ++
        (overloadMarker 1 name ++ (b1 ++ (overloadMarker 2 name ++ b2))))
      = some [t1, t2] := by
  unfold parse_pybind_docstring
  simp only [isPrefixOf_append_self, if_true, List.drop_left]
  rw [show lf + 2 = (lf + 1) + 1 from rfl]
  rw [ppDocLoop]
  simp only [isPrefixOf_append_self, if_true]
  rw [show (1 + 1 : Nat) = 2 from rfl, h1]
  simp only [chunk_first_block, h3, h4, beq_self_eq_true, if_true,
    drop_to_second_block, List.nil_append]
  rw [ppDocLoop]
  simp only [isPrefixOf_append_self, if_true]
  rw [show (2 + 1 : Nat) = 3 from rfl, h2]
  rw [chunk_last_block name b2 hb2]
  rw [h5]
  simp only [h6, beq_self_eq_true, if_true]
  simp

/-- C3 witness: the spec's own example
`f(*args, **kwargs)\nOverloaded function.\n\n1. f(a: int) -> int\n\n2. f(a: str) -> str\n\n`
yields exactly two tuples in order, each named `f`, with one parameter `a`
of type `int` resp. `str` and return type `int` resp. `str`. -/
theorem parse_pybind_docstring_two_overloads_witness :
    overloadHeader (("f" : String).toList) ++
      (overloadMarker 1 (("f" : String).toList) ++
        ((("a: int) -> int\n\n" : String).toList) ++
          (overloadMarker 2 (("f" : String).toList) ++
            (("a: str) -> str\n\n" : String).toList)))) =
      (("f(*args, **kwargs)\nOverloaded function.\n\n1. f(a: int) -> int\n\n2. f(a: str) -> str\n\n" : String).toList) ∧
    parse_pybind_docstring [] 2 100 (("f" : String).toList)
      (overloadHeader (("f" : String).toList) ++
        (overloadMarker 1 (("f" : String).toList) ++
          ((("a: int) -> int\n\n" : String).toList) ++
            (overloadMarker 2 (("f" : String).toList) ++
              (("a: str) -> str\n\n" : String).toList))))) =
      some [
        { sigName := (("f" : String).toList), summary := [],
          args := [⟨(("a" : String).toList), some (("int" : String).toList), none⟩],
          ret := some (("int" : String).toList), degenerate := false, warnings := [] },
        { sigName := (("f" : String).toList), summary := [],
          args := [⟨(("a" : String).toList), some (("str" : String).toList), none⟩],
          ret := some (("str" : String).toList), degenerate := false, warnings := [] }] := by
  constructor
  · decide
  · exact parse_pybind_docstring_two_overloads [] 100 0 (("f" : String).toList)
      (String.toList ("a: int) -> int\n\n"))
      (String.toList ("a: str) -> str\n\n"))
      _ _ (by decide) (by decide) (by decide) (by decide) (by decide) (by decide)
      (by decide)

/-! ## C7: `parse_pybind_type` on grammar-conforming bracketed types -/

theorem sizeP_pos (t : PType) : 1 ≤ sizeP t := by
  cases t with
  | node tok args => simp [sizeP]

theorem typeChar_not_lbracket (c : Char) (h : isTypeChar c = true) :
    (c == '[') = false := by
  cases hx : c == '[' with
  | false => rfl
  | true =>
    rw [beq_iff_eq] at hx
    subst hx
    exact absurd h (by decide)

theorem typeChar_not_rbracket (c : Char) (h : isTypeChar c = true) :
    (c == ']') = false := by
  cases hx : c == ']' with
  | false => rfl
  | true =>
    rw [beq_iff_eq] at hx
    subst hx
    exact absurd h (by decide)

theorem render_head (a : PType) (h : wfP a = true) :
    ∃ c cs, renderG (fun s => s) a = c :: cs ∧ isTypeChar c = true := by
  cases a with
  | node tok args =>
    simp only [wfP, Bool.and_eq_true, Bool.not_eq_true'] at h
    obtain ⟨⟨hne, hall⟩, -⟩ := h
    cases tok with
    | nil => simp [List.isEmpty] at hne
    | cons c ct =>
      refine ⟨c, ct ++ renderArgsG (fun s => s) args, by simp [renderG], ?_⟩
      rw [List.all_cons, Bool.and_eq_true] at hall
      exact hall.1

theorem restOk_cons_of_typeChar_ne (c : Char) (t : Str)
    (h1 : isTypeChar c = false) (h2 : (c == '[') = false) :
    restOk (c :: t) = true := by
  simp [restOk, h1, h2]

theorem restOk_not_lbracket (ys : Str) (h : restOk ys = true) :
    startsWithChar '[' ys = false := by
  cases ys with
  | nil => rfl
  | cons c t =>
    simp only [restOk, Bool.and_eq_true, Bool.not_eq_true'] at h
    simp [startsWithChar, h.2]

theorem ppType_roundtrip (m : List (Str × Str)) : ∀ fuel : Nat,
    (∀ (t : PType) (rest : Str),
      wfP t = true → restOk rest = true → sizeP t < fuel →
      parse_pybind_type m fuel (renderG (fun s => s) t ++ rest) =
        some (rest, renderG (fun s => map_name_prefix m s) t))
    ∧ (∀ (a : PType) (as : PTypeList) (rest acc : Str),
      wfP a = true → wfL as = true → sizeP a + sizeL as + 1 < fuel →
      ppTypeInner m fuel (renderSeqG (fun s => s) a as ++ ']' :: rest) acc =
        some (rest, acc ++ renderSeqG (fun s => map_name_prefix m s) a as ++ [']'])) := by
  intro fuel
  induction fuel with
  | zero =>
    constructor
    · intro t rest _ _ hsz
      omega
    · intro a as rest acc _ _ hsz
      omega
  | succ f ih =>
    obtain ⟨ih1, ih2⟩ := ih
    constructor
    · intro t rest hwf hrest hsz
      obtain ⟨tok, args⟩ := t
      simp only [wfP, Bool.and_eq_true, Bool.not_eq_true'] at hwf
      obtain ⟨⟨hne, hall⟩, hargs⟩ := hwf
      cases args with
      | nil =>
        simp only [renderG, renderArgsG, List.append_nil]
        simp only [parse_pybind_type]
        rw [takeWhile_append_all tok rest hall, restOk_takeWhile rest hrest,
          List.append_nil, dropWhile_append_all tok rest hall,
          restOk_dropWhile rest hrest]
        simp [hne, restOk_not_lbracket rest hrest]
      | cons a as =>
        simp only [renderG, renderArgsG]
        simp only [wfL, Bool.and_eq_true] at hargs
        obtain ⟨ha, has⟩ := hargs
        have hsz2 : sizeP a + sizeL as + 1 < f := by
          simp only [sizeP, sizeL] at hsz
          omega
        have harr : (tok ++ '[' :: (renderSeqG (fun s => s) a as ++ [']'])) ++ rest =
            tok ++ ('[' :: (renderSeqG (fun s => s) a as ++ (']' :: rest))) := by
          simp
        rw [harr]
        simp only [parse_pybind_type]
        rw [takeWhile_append_all tok _ hall, dropWhile_append_all tok _ hall]
        have htw : ('[' :: (renderSeqG (fun s => s) a as ++ (']' :: rest))).takeWhile
            isTypeChar = [] := by
          simp [List.takeWhile, (by decide : isTypeChar '[' = false)]
        have hdw : ('[' :: (renderSeqG (fun s => s) a as ++ (']' :: rest))).dropWhile
            isTypeChar = '[' :: (renderSeqG (fun s => s) a as ++ (']' :: rest)) := by
          simp [List.dropWhile, (by decide : isTypeChar '[' = false)]
        rw [htw, hdw, List.append_nil]
        simp only [hne, Bool.false_eq_true, if_false, startsWithChar, beq_self_eq_true,
          if_true, List.drop_succ_cons, List.drop_zero]
        rw [ih2 a as rest ( map_name_prefix m tok ++ ['[']) ha has hsz2]
        simp
    · intro a as rest acc ha has hsz
      obtain ⟨c, cs, hrend, hc⟩ := render_head a ha
      cases as with
      | nil =>
        have hsz2 : sizeP a < f := by
          simp only [sizeL] at hsz
          omega
        have h1 := ih1 a (']' :: rest) ha
          (restOk_cons_of_typeChar_ne ']' rest (by decide) (by decide)) hsz2
        simp only [renderSeqG]
        simp only [ppTypeInner]
        rw [hrend] at h1 ⊢
        simp only [List.cons_append] at h1
        simp only [List.cons_append, List.isEmpty_cons, Bool.false_eq_true, if_false,
          startsWithChar, typeChar_not_rbracket c hc, Bool.false_eq_true, if_false]
        rw [h1]
        simp
      | cons b bs =>
        simp only [wfL, Bool.and_eq_true] at has
        obtain ⟨hb, hbs⟩ := has
        have hszA : sizeP a < f := by
          have := sizeP_pos b
          simp only [sizeL] at hsz
          omega
        have hszB : sizeP b + sizeL bs + 1 < f := by
          have := sizeP_pos a
          simp only [sizeL] at hsz
          omega
        simp only [renderSeqG]
        have harr : (renderG (fun s => s) a ++ ',' :: ' ' ::
            renderSeqG (fun s => s) b bs) ++ ']' :: rest =
            renderG (fun s => s) a ++ (',' :: ' ' ::
              (renderSeqG (fun s => s) b bs ++ ']' :: rest)) := by
          simp
        rw [harr]
        have h1 := ih1 a (',' :: ' ' :: (renderSeqG (fun s => s) b bs ++ ']' :: rest)) ha
          (restOk_cons_of_typeChar_ne ',' _ (by decide) (by decide)) hszA
        simp only [ppTypeInner]
        rw [hrend] at h1 ⊢
        simp only [List.cons_append] at h1
        simp only [List.cons_append, List.isEmpty_cons, Bool.false_eq_true, if_false,
          startsWithChar, typeChar_not_rbracket c hc]
        rw [h1]
        simp only [startsWithChar, (by decide : ((',' : Char) == ']') = false),
          Bool.false_eq_true, if_false]
        have hcp : commaSpace.isPrefixOf (',' :: ' ' ::
            (renderSeqG (fun s => s) b bs ++ ']' :: rest)) = true := by
          simp [commaSpace, List.isPrefixOf]
        rw [hcp]
        simp only [if_true, List.drop_succ_cons, List.drop_zero]
        rw [ih2 b bs rest (acc ++ renderG (fun s => map_name_prefix m s) a ++ commaSpace)
          hb hbs hszB]
        simp [commaSpace]

theorem depthAux_bracket_free (s : Str)
    (h : ∀ c ∈ s, (c == '[') = false ∧ (c == ']') = false) :
    ∀ (rest : Str) (cur mx : Nat),
    depthAux (s ++ rest) cur mx = depthAux rest cur mx := by
  induction s with
  | nil => intro rest cur mx; rfl
  | cons c t ih =>
    intro rest cur mx
    have hc := h c (List.mem_cons_self c t)
    simp only [List.cons_append, depthAux, hc.1, hc.2, Bool.false_eq_true, if_false]
    exact ih (fun d hd => h d (List.mem_cons_of_mem c hd)) rest cur mx

theorem depth_renderG (g : Str → Str)
    (hg : ∀ s : Str, s.all isTypeChar = true → ∀ c ∈ g s,
      (c == '[') = false ∧ (c == ']') = false) :
    ∀ n : Nat,
    (∀ (t : PType) (rest : Str) (cur mx : Nat),
      wfP t = true → sizeP t ≤ n → cur ≤ mx →
      depthAux (renderG g t ++ rest) cur mx =
        depthAux rest cur (max mx (cur + nestP t)))
    ∧ (∀ (a : PType) (as : PTypeList) (rest : Str) (cur mx : Nat),
      wfP a = true → wfL as = true → sizeP a + sizeL as ≤ n → cur ≤ mx →
      depthAux (renderSeqG g a as ++ rest) cur mx =
        depthAux rest cur (max mx (cur + nestSeq a as))) := by
  intro n
  induction n with
  | zero =>
    constructor
    · intro t rest cur mx _ hsz _
      have := sizeP_pos t
      omega
    · intro a as rest cur mx _ _ hsz _
      have := sizeP_pos a
      omega
  | succ n ih =>
    obtain ⟨ih1, ih2⟩ := ih
    have P1 : ∀ (t : PType) (rest : Str) (cur mx : Nat),
        wfP t = true → sizeP t ≤ n + 1 → cur ≤ mx →
        depthAux (renderG g t ++ rest) cur mx =
          depthAux rest cur (max mx (cur + nestP t)) := by
      intro t rest cur mx hwf hsz hcm
      obtain ⟨tok, args⟩ := t
      simp only [wfP, Bool.and_eq_true, Bool.not_eq_true'] at hwf
      obtain ⟨⟨hne, hall⟩, hargs⟩ := hwf
      simp only [renderG]
      rw [List.append_assoc, depthAux_bracket_free (g tok) (hg tok hall)]
      cases args with
      | nil =>
        simp only [renderArgsG, List.nil_append, nestP]
        rw [Nat.add_zero, Nat.max_eq_left hcm]
      | cons a as =>
        simp only [wfL, Bool.and_eq_true] at hargs
        obtain ⟨ha, has⟩ := hargs
        simp only [renderArgsG, nestP, List.cons_append, List.append_assoc,
          List.singleton_append, List.nil_append]
        simp only [depthAux, (by decide : (('[' : Char) == '[') = true), if_true]
        rw [ih2 a as (']' :: rest) (cur + 1) (max mx (cur + 1)) ha has
          (by simp only [sizeP, sizeL] at hsz; omega) (Nat.le_max_right _ _)]
        simp only [depthAux, (by decide : ((']' : Char) == '[') = false),
          (by decide : ((']' : Char) == ']') = true), Bool.false_eq_true, if_false,
          if_true, Nat.add_sub_cancel]
        congr 1
        omega
    refine ⟨P1, ?_⟩
    intro a as rest cur mx ha has hsz hcm
    cases as with
    | nil =>
      simp only [renderSeqG, nestSeq, sizeL] at hsz ⊢
      exact P1 a rest cur mx ha (by omega) hcm
    | cons b bs =>
      simp only [wfL, Bool.and_eq_true] at has
      obtain ⟨hb, hbs⟩ := has
      simp only [renderSeqG, nestSeq, List.append_assoc, List.cons_append]
      rw [P1 a _ cur mx ha (by simp only [sizeL] at hsz; omega) hcm]
      simp only [depthAux, (by decide : ((',' : Char) == '[') = false),
        (by decide : ((',' : Char) == ']') = false),
        (by decide : ((' ' : Char) == '[') = false),
        (by decide : ((' ' : Char) == ']') = false), Bool.false_eq_true, if_false]
      rw [ih2 b bs rest cur (max mx (cur + nestP a)) hb hbs
        (by have := sizeP_pos a; simp only [sizeL] at hsz; omega)
        (Nat.le_trans hcm (Nat.le_max_left _ _))]
      congr 1
      omega

theorem typeChar_all_bracketFree :
    ∀ s : Str, s.all isTypeChar = true → ∀ c ∈ (fun s : Str => s) s,
      (c == '[') = false ∧ (c == ']') = false := by
  intro s hs c hc
  rw [List.all_eq_true] at hs
  have := hs c hc
  exact ⟨typeChar_not_lbracket c this, typeChar_not_rbracket c this⟩

theorem map_name_prefix_bracketFree (m : List (Str × Str))
    (hm : mappingBracketFree m = true) :
    ∀ s : Str, s.all isTypeChar = true →
      ∀ c ∈ (fun s => map_name_prefix m s) s,
      (c == '[') = false ∧ (c == ']') = false := by
  induction m with
  | nil => exact typeChar_all_bracketFree
  | cons pr rest ih =>
    intro s hs c hc
    obtain ⟨p, r⟩ := pr
    rw [mappingBracketFree, List.all_cons, Bool.and_eq_true] at hm
    obtain ⟨hpr, hrest⟩ := hm
    simp only [ map_name_prefix] at hc
    by_cases hmk : matchesKeyB p s
    · rw [if_pos hmk] at hc
      rcases List.mem_append.mp hc with hcr | hcd
      · have hb := List.all_eq_true.mp hpr c hcr
        simp only [Bool.and_eq_true, Bool.not_eq_true'] at hb
        exact hb
      · have hcs := List.mem_of_mem_drop hcd
        rw [List.all_eq_true] at hs
        have := hs c hcs
        exact ⟨typeChar_not_lbracket c this, typeChar_not_rbracket c this⟩
    · rw [if_neg hmk] at hc
      exact ih hrest s hs c hc

theorem maxDepth_renderG (g : Str → Str)
    (hg : ∀ s : Str, s.all isTypeChar = true → ∀ c ∈ g s,
      (c == '[') = false ∧ (c == ']') = false)
    (t : PType) (hwf : wfP t = true) : maxDepth (renderG g t) = nestP t := by
  have h := (depth_renderG g hg (sizeP t)).1 t [] 0 0 hwf (Nat.le_refl _) (Nat.le_refl _)
  rw [List.append_nil] at h
  rw [maxDepth, h]
  simp [depthAux]

/-- C7: for every bracketed generic type string conforming to the grammar
(a type token `[a-zA-Z0-9_.]+`, optionally followed by `[`, inner types of
the same shape separated by `, `, then `]`), rendered from the tree
`.node tok args` and followed by a remainder that neither extends the
token nor opens a bracket, `parse_pybind_type` consumes exactly the
rendered input and returns the unconsumed remainder together with a type
string that is literally the input's top-level token mapped through the
Name Mapper followed by the (recursively mapped) bracketed part; and when
no registered replacement contains a bracket, the output's bracket-nesting
depth equals that of the consumed input. -/
theorem parse_pybind_type_grammar (m : List (Str × Str)) (fuel : Nat)
    (tok : Str) (args : PTypeList) (rest : Str)
    (hwf : wfP (.node tok args) = true) (hrest : restOk rest = true)
    (hfuel : sizeP (.node tok args) < fuel) (hm : mappingBracketFree m = true) :
    parse_pybind_type m fuel (renderP (.node tok args) ++ rest) =
      some (rest, map_name_prefix m tok ++
        renderArgsG (fun s => map_name_prefix m s) args) ∧
    maxDepth (renderMapped m (.node tok args)) =
      maxDepth (renderP (.node tok args)) := by
  constructor
  · have h := (ppType_roundtrip m fuel).1 (.node tok args) rest hwf hrest hfuel
    simp only [renderP] at h ⊢
    rw [h]
    simp only [renderG]
  · simp only [renderMapped, renderP]
    rw [maxDepth_renderG _ (map_name_prefix_bracketFree m hm) _ hwf,
      maxDepth_renderG _ typeChar_all_bracketFree _ hwf]

/-- C7 witness: `List[int, Map[str, int]]` followed by `)\n`, with the
mapping `Map ↦ Dict`, parses to `List[int, Dict[str, int]]` with the
remainder `)\n`, preserving the nesting depth. -/
theorem parse_pybind_type_grammar_witness :
    parse_pybind_type [((("Map" : String).toList), (("Dict" : String).toList))] 50
      (renderP (.node (("List" : String).toList)
        (.cons (.node (("int" : String).toList) .nil)
          (.cons (.node (("Map" : String).toList)
            (.cons (.node (("str" : String).toList) .nil)
              (.cons (.node (("int" : String).toList) .nil) .nil))) .nil))) ++
        (')' :: ['\n'])) =
      some ((')' :: ['\n']),
        map_name_prefix [((("Map" : String).toList), (("Dict" : String).toList))]
          (("List" : String).toList) ++
        renderArgsG (fun s =>
          map_name_prefix [((("Map" : String).toList), (("Dict" : String).toList))] s)
          (.cons (.node (("int" : String).toList) .nil)
            (.cons (.node (("Map" : String).toList)
              (.cons (.node (("str" : String).toList) .nil)
                (.cons (.node (("int" : String).toList) .nil) .nil))) .nil))) ∧
    maxDepth (renderMapped [((("Map" : String).toList), (("Dict" : String).toList))]
      (.node (("List" : String).toList)
        (.cons (.node (("int" : String).toList) .nil)
          (.cons (.node (("Map" : String).toList)
            (.cons (.node (("str" : String).toList) .nil)
              (.cons (.node (("int" : String).toList) .nil) .nil))) .nil)))) =
    maxDepth (renderP (.node (("List" : String).toList)
      (.cons (.node (("int" : String).toList) .nil)
        (.cons (.node (("Map" : String).toList)
          (.cons (.node (("str" : String).toList) .nil)
            (.cons (.node (("int" : String).toList) .nil) .nil))) .nil)))) := by
  exact parse_pybind_type_grammar _ 50 _ _ _ (by decide) (by decide) (by decide)
    (by decide)
